import Mathlib

/-!
Formal model of the resume/overwrite gate and partition-count adjuster of
`export_ht_to_parquet.py`, and of the position sampler and query-plan builder
of `polars_parquet_smoketest.py`, together with proofs of the documented
properties of these components.
-/

/-- Model of a contig output directory: the files it holds, as
(name, bytes) pairs. At use sites `none` stands for an absent directory. -/
structure ContigDir where
  files : List (String × List Nat)
deriving DecidableEq

/-- Model of `_success_file_exists` (export_ht_to_parquet.py): a `_SUCCESS`
marker file is present at the directory root. -/
def successFileExists (d : ContigDir) : Bool :=
  d.files.any (fun f => f.1 == "_SUCCESS")

/-- Decision returned by the resume/overwrite gate: proceed with writing,
skip the contig, or abort the process (`SystemExit`). -/
inductive GateDecision where
  | proceed
  | skip
  | fatal
deriving DecidableEq

/-- Model of `_ensure_empty_output_dir` (export_ht_to_parquet.py): decides
whether the caller should proceed, skip, or abort, and gives the directory
state left behind (`--overwrite` deletes the whole directory via
`shutil.rmtree`; the fatal `SystemExit` leaves the directory as it was). -/
def ensureEmptyOutputDir (dir : Option ContigDir) (overwrite resume : Bool) :
    GateDecision × Option ContigDir :=
  match dir with
  | none => (GateDecision.proceed, none)
  | some d =>
    if resume && successFileExists d then (GateDecision.skip, some d)
    else if overwrite then (GateDecision.proceed, none)
    else (GateDecision.fatal, some d)

/-- Model of the coalesce step of `main` (export_ht_to_parquet.py): when
`--max-files-per-contig` is set and the current Spark partition count exceeds
it, `df.coalesce(max_files)` narrows to exactly that many partitions;
otherwise the count is unchanged. -/
def coalesceStep (maxFiles : Option Nat) (sparkParts : Nat) : Nat :=
  match maxFiles with
  | some m => if sparkParts > m then m else sparkParts
  | none => sparkParts

/-- Model of the widen step of `main` (export_ht_to_parquet.py): when
`--min-files-per-contig` is set and the current Spark partition count is below
it, `df.repartitionByRange(min_files, "position")` widens to exactly that many
partitions; otherwise the count is unchanged. -/
def widenStep (minFiles : Option Nat) (sparkParts : Nat) : Nat :=
  match minFiles with
  | some n => if sparkParts < n then n else sparkParts
  | none => sparkParts

/-- Both adjustment steps in the order the exporter applies them:
coalesce first, then widen against the count left by the coalesce step. -/
def adjustParts (maxFiles minFiles : Option Nat) (sparkParts : Nat) : Nat :=
  widenStep minFiles (coalesceStep maxFiles sparkParts)

/-- Model of Python `round` applied to the exact rational `num / den`
(`den > 0`): round half to even, as in
`round(i * (len(pool) - 1) / max(1, n - 1))`. -/
def pyRound (num den : Nat) : Nat :=
  let q := num / den
  let r := num % den
  if 2 * r < den then q
  else if den < 2 * r then q + 1
  else if q % 2 = 0 then q else q + 1

/-- Model of the quantile index list of `main` (polars_parquet_smoketest.py):
`round(i * (len(pool) - 1) / max(1, n_range_queries - 1))` for each
`i < n_range_queries`. -/
def rangeIdxs (poolLen nRange : Nat) : List Nat :=
  (List.range nRange).map (fun i => pyRound (i * (poolLen - 1)) (max 1 (nRange - 1)))

/-- Model of `range_centers = [candidate_positions_list[i] for i in idxs]`
(polars_parquet_smoketest.py); out-of-range indices default to 0 (they never
occur for the computed index list). -/
def rangeCenters (pool : List Int) (nRange : Nat) : List Int :=
  (rangeIdxs pool.length nRange).map (fun i => pool.getD i 0)

/-- Model of the per-center range window of `main`
(polars_parquet_smoketest.py):
`start = max(pos_min, center - width // 2)`,
`end = min(pos_max, start + width - 1)`,
`start = max(pos_min, min(start, end))`. -/
def rangeWindow (posMin posMax center width : Int) : Int × Int :=
  let start0 := max posMin (center - width / 2)
  let e := min posMax (start0 + width - 1)
  (max posMin (min start0 e), e)

/-- Modelled from the spec: the "seeded pseudo-random generator"
`random.Random(seed)` (a Mersenne Twister) used by the sampler and the
query-plan builder. Every property proved below depends only on the stream
being a fixed deterministic function of the seed and the draw index, never on
the particular pseudo-random values, so those values are modelled by an
arbitrary fixed function. -/
def pyStream (seed : Nat) (i : Nat) : Nat :=
  (seed + i + 1) * 2654435761 % 4294967296

/-- Modelled from the spec: `random.Random.sample(pool, k)` — "choose
`min(n_files, len(files))` distinct files without replacement". Partial
Fisher-Yates selection: draw number `i` takes the element at pseudo-random
index `rand i % len(pool)` and removes it from the pool. -/
def pySample {α : Type} (rand : Nat → Nat) : Nat → List α → Nat → List α
  | _, _, 0 => []
  | _, [], _ + 1 => []
  | i, a :: t, k + 1 =>
    let j := rand i % (a :: t).length
    (a :: t).getD j a :: pySample rand (i + 1) ((a :: t).eraseIdx j) k

/-- Modelled from the spec: `random.Random.shuffle` — the "seeded random
shuffle ... (without replacement)" of the remaining pool values, i.e. a full
without-replacement draw of the whole pool. -/
def pyShuffle {α : Type} (rand : Nat → Nat) (l : List α) : List α :=
  pySample rand 0 l l.length

/-- Outcome of one `pl.read_parquet(path, columns=["position"], n_rows=...)`
call: `Except.error` for an unreadable or malformed file, otherwise the
`position` column, whose entries may be null. -/
abbrev ReadResult := Except Unit (List (Option Int))

/-- Model of the body of the sampling loop in
`_sample_existing_positions_from_files` (polars_parquet_smoketest.py): an
unreadable file is skipped (contributes nothing), otherwise at most `nRows`
rows are read and the non-null positions are kept. -/
def readDF (nRows : Nat) (d : ReadResult) : List Int :=
  match d with
  | Except.error _ => []
  | Except.ok rows => (rows.take nRows).filterMap id

/-- Model of the whole sampling loop: the concatenated contributions of the
chosen files' read outcomes. -/
def collectPositions (nRows : Nat) : List ReadResult → List Int
  | [] => []
  | d :: dfs => readDF nRows d ++ collectPositions nRows dfs

/-- Model of the files chosen by `rng.sample(parquet_files, n_files)` after
`n_files = min(n_files, len(parquet_files))`
(polars_parquet_smoketest.py). -/
def chosenFiles (parquetFiles : List String) (nFiles seed : Nat) : List String :=
  pySample (pyStream seed) 0 parquetFiles (min nFiles parquetFiles.length)

/-- Model of `_sample_existing_positions_from_files`
(polars_parquet_smoketest.py): positions sampled from the chosen files,
reading at most `nRowsPerFile` rows per file. `readFile` is the filesystem's
answer for each path. -/
def sampleExistingPositionsFromFiles (readFile : String → ReadResult)
    (parquetFiles : List String) (nFiles nRowsPerFile seed : Nat) : List Int :=
  if parquetFiles.isEmpty then []
  else collectPositions nRowsPerFile ((chosenFiles parquetFiles nFiles seed).map readFile)

/-- Model of `sorted(set(xs))` for integer lists. -/
def sortedDedup (l : List Int) : List Int :=
  List.insertionSort (· ≤ ·) l.dedup

/-- Model of the `if not candidate_positions_list: raise SystemExit(...)` gate
in `main` (polars_parquet_smoketest.py). -/
def noPositionsFatal (l : List Int) : Bool :=
  l.isEmpty

/-- Model of the `n_rows == 0 or pos_min is None or pos_max is None` fatal
check in `main` (polars_parquet_smoketest.py). -/
def basicStatsFatal (nRows : Nat) (posMin posMax : Option Int) : Bool :=
  nRows == 0 || posMin.isNone || posMax.isNone

/-- Model of the candidate position pool construction in `main`
(polars_parquet_smoketest.py): start the set from `{pos_min, pos_max}`, add
the in-range file-sampled positions, add the fallback head-scan positions
(non-null entries) when the set is still smaller than
`max(3, n_point_queries, n_range_queries)`, then sort the set. -/
def candidatePositionsList (posMin posMax : Int) (fileSamplePositions : List Int)
    (fallbackPositions : List (Option Int)) (nPointQueries nRangeQueries : Nat) :
    List Int :=
  let base := ([posMin, posMax] ++ fileSamplePositions.filter
      (fun p => decide (posMin ≤ p) && decide (p ≤ posMax))).dedup
  let cand := if base.length < max 3 (max nPointQueries nRangeQueries)
    then base ++ fallbackPositions.filterMap id else base
  sortedDedup cand

/-- Model of the point-query selection in `main`
(polars_parquet_smoketest.py), parameterized by the draw stream `rand` of
`random.Random(args.seed)`: start from `[pos_min]` (plus `pos_max` when
different), shuffle the remaining candidates, extend by at most
`n_point_queries - len(point_positions)` of them, then take
`sorted(set(point_positions))[:n_point_queries]`. -/
def pointPositionsWith (rand : Nat → Nat) (posMin posMax : Int)
    (candidates : List Int) (nPointQueries : Nat) : List Int :=
  if nPointQueries = 0 then []
  else
    let pp0 := if posMax ≠ posMin then [posMin, posMax] else [posMin]
    let remaining := candidates.filter (fun p => decide (¬ p ∈ pp0))
    let shuffled := pyShuffle rand remaining
    let pp1 := pp0 ++ shuffled.take (nPointQueries - pp0.length)
    (sortedDedup pp1).take nPointQueries

/-- Point-query selection with the seeded stream of
`random.Random(args.seed)`. -/
def pointPositions (seed : Nat) (posMin posMax : Int) (candidates : List Int)
    (nPointQueries : Nat) : List Int :=
  pointPositionsWith (pyStream seed) posMin posMax candidates nPointQueries

/-- A list is a permutation of the element at any index consed onto the list
with that index erased. -/
theorem perm_get_cons_eraseIdx {α : Type} (l : List α) (j : Nat) (h : j < l.length) :
    List.Perm l (l.get ⟨j, h⟩ :: l.eraseIdx j) := by
  induction l generalizing j with
  | nil => simp at h
  | cons a t ih =>
    cases j with
    | zero => simp [List.eraseIdx]
    | succ j =>
      have h' : j < t.length := Nat.lt_of_succ_lt_succ (by simpa using h)
      exact ((ih j h').cons a).trans (List.Perm.swap _ _ _)

/-- The element drawn at index `j` does not survive into the shrunken pool,
when the pool has no duplicates. -/
theorem get_not_mem_eraseIdx_of_nodup {α : Type} {l : List α} (hnd : l.Nodup)
    (j : Nat) (h : j < l.length) : l.get ⟨j, h⟩ ∉ l.eraseIdx j := by
  have hp := perm_get_cons_eraseIdx l j h
  exact (List.nodup_cons.mp (hp.nodup_iff.mp hnd)).1

/-- A without-replacement draw returns `min k (pool size)` elements. -/
theorem pySample_length {α : Type} (rand : Nat → Nat) :
    ∀ (k i : Nat) (pool : List α), (pySample rand i pool k).length = min k pool.length := by
  intro k
  induction k with
  | zero => intro i pool; simp [pySample]
  | succ k ih =>
    intro i pool
    cases pool with
    | nil => simp [pySample]
    | cons a t =>
      simp only [pySample, List.length_cons]
      rw [ih]
      have hj : rand i % (a :: t).length < (a :: t).length :=
        Nat.mod_lt _ (by simp)
      have h2 := List.length_eraseIdx_add_one hj
      simp only [List.length_cons] at h2 ⊢
      omega

/-- Every drawn element comes from the pool. -/
theorem pySample_subset {α : Type} (rand : Nat → Nat) :
    ∀ (k i : Nat) (pool : List α) (x : α), x ∈ pySample rand i pool k → x ∈ pool := by
  intro k
  induction k with
  | zero => intro i pool x hx; simp [pySample] at hx
  | succ k ih =>
    intro i pool x hx
    cases pool with
    | nil => simp [pySample] at hx
    | cons a t =>
      simp only [pySample] at hx
      have hj : rand i % (a :: t).length < (a :: t).length :=
        Nat.mod_lt _ (by simp)
      rcases List.mem_cons.mp hx with rfl | hx'
      · rw [List.getD_eq_get _ _ hj]
        exact List.get_mem _ _ _
      · exact (List.eraseIdx_sublist (a :: t) (rand i % (a :: t).length)).subset (ih _ _ x hx')

/-- A without-replacement draw from a duplicate-free pool is
duplicate-free. -/
theorem pySample_nodup {α : Type} (rand : Nat → Nat) :
    ∀ (k i : Nat) (pool : List α), pool.Nodup → (pySample rand i pool k).Nodup := by
  intro k
  induction k with
  | zero => intro i pool _; simp [pySample]
  | succ k ih =>
    intro i pool hnd
    cases pool with
    | nil => simp [pySample]
    | cons a t =>
      simp only [pySample]
      have hj : rand i % (a :: t).length < (a :: t).length :=
        Nat.mod_lt _ (by simp)
      rw [List.getD_eq_get _ _ hj]
      refine List.nodup_cons.mpr ⟨?_, ?_⟩
      · intro hmem
        exact get_not_mem_eraseIdx_of_nodup hnd _ hj (pySample_subset rand k _ _ _ hmem)
      · refine ih _ _ ?_
        exact hnd.sublist (List.eraseIdx_sublist _ _)

/-- A full-length without-replacement draw is a permutation of the pool. -/
theorem pySample_perm {α : Type} (rand : Nat → Nat) :
    ∀ (k i : Nat) (pool : List α), pool.length = k →
      List.Perm (pySample rand i pool k) pool := by
  intro k
  induction k with
  | zero =>
    intro i pool h
    simp [pySample, List.length_eq_zero.mp h]
  | succ k ih =>
    intro i pool h
    cases pool with
    | nil => simp at h
    | cons a t =>
      simp only [pySample]
      have hj : rand i % (a :: t).length < (a :: t).length :=
        Nat.mod_lt _ (by simp)
      rw [List.getD_eq_get _ _ hj]
      have hlen : ((a :: t).eraseIdx (rand i % (a :: t).length)).length = k := by
        have h2 := List.length_eraseIdx_add_one hj
        simp only [List.length_cons] at h2 h ⊢
        omega
      exact ((ih _ _ hlen).cons _).trans (perm_get_cons_eraseIdx (a :: t) _ hj).symm

/-- The shuffle model is a permutation of its input. -/
theorem pyShuffle_perm {α : Type} (rand : Nat → Nat) (l : List α) :
    List.Perm (pyShuffle rand l) l :=
  pySample_perm rand l.length 0 l rfl

/-- Membership in `sorted(set(xs))` is membership in `xs`. -/
theorem mem_sortedDedup {l : List Int} {x : Int} : x ∈ sortedDedup l ↔ x ∈ l := by
  simp [sortedDedup, List.mem_dedup]

/-- Sorting a deduplicated list keeps it duplicate-free. -/
theorem sortedDedup_nodup (l : List Int) : (sortedDedup l).Nodup :=
  ((List.perm_insertionSort _ _).nodup_iff).mpr (List.nodup_dedup l)

/-- The result of `sorted(set(xs))` is sorted. -/
theorem sortedDedup_sorted (l : List Int) : List.Sorted (· ≤ ·) (sortedDedup l) :=
  List.sorted_insertionSort _ _

/-- The size of `sorted(set(xs))` is the number of distinct values. -/
theorem sortedDedup_length (l : List Int) : (sortedDedup l).length = l.dedup.length :=
  List.length_insertionSort _ _

/-- The sorted set is empty exactly when the input list is. -/
theorem sortedDedup_eq_nil_iff {l : List Int} : sortedDedup l = [] ↔ l = [] := by
  constructor
  · intro h
    cases l with
    | nil => rfl
    | cons a t =>
      have : a ∈ sortedDedup (a :: t) := mem_sortedDedup.mpr (List.mem_cons_self a t)
      rw [h] at this
      simp at this
  · intro h
    subst h
    rfl

/-- A minimal element of a sorted list is its head, hence survives any
nonempty truncation. -/
theorem min_mem_take_of_sorted {l : List Int} {x : Int}
    (hs : List.Sorted (· ≤ ·) l) (hx : x ∈ l) (hmin : ∀ y ∈ l, x ≤ y)
    {n : Nat} (hn : 1 ≤ n) : x ∈ l.take n := by
  cases l with
  | nil => simp at hx
  | cons a t =>
    have hxa : x ≤ a := hmin a (List.mem_cons_self a t)
    have hax : a ≤ x := by
      rcases List.mem_cons.mp hx with rfl | hxt
      · exact le_refl _
      · exact (List.sorted_cons.mp hs).1 x hxt
    have hxe : x = a := le_antisymm hxa hax
    cases n with
    | zero => omega
    | succ n =>
      rw [List.take_succ_cons, hxe]
      exact List.mem_cons_self a _

/-- C1 counterexample: in scenario D (pool [100, 200, 300, 400, 500],
width 100) the window derived from center 500 is `[450, 500]`, not the
claimed `[451, 500]`; the end is clipped to the pool maximum and the window
width shrinks to 51 instead of being preserved by shifting. -/
theorem range_scenario_d_counterexample :
    rangeWindow 100 500 500 100 = (450, 500) ∧
    ¬ rangeWindow 100 500 500 100 = (451, 500) := by
  constructor <;> decide

/-- C1 (amended): in scenario D the chosen centers are the pool values at
indices [0, 2, 4], i.e. [100, 300, 500], and the inclusive windows are
clipped to the pool bounds: center 100 gives [100, 199], center 300 gives
[250, 349], and center 500 gives [450, 500] (the end clipped at the pool
maximum, the width shrinking rather than being preserved). -/
theorem range_scenario_d_amended :
    rangeIdxs 5 3 = [0, 2, 4] ∧
    rangeCenters [100, 200, 300, 400, 500] 3 = [100, 300, 500] ∧
    (rangeCenters [100, 200, 300, 400, 500] 3).map
      (fun c => rangeWindow 100 500 c 100) = [(100, 199), (250, 349), (450, 500)] := by
  refine ⟨?_, ?_, ?_⟩ <;> decide

/-- C2: the resume/overwrite gate proceeds when the path is absent; else
skips when resume is set and the completion marker exists (resume checked
before overwrite); else deletes the directory and proceeds when overwrite is
set; else fails fatally — in particular resume set with no marker and
overwrite unset falls through to the fatal case. -/
theorem gate_decision_cases (d : ContigDir) (ow rs : Bool) :
    ensureEmptyOutputDir none ow rs = (GateDecision.proceed, none) ∧
    (rs = true → successFileExists d = true →
      ensureEmptyOutputDir (some d) ow rs = (GateDecision.skip, some d)) ∧
    (¬ (rs = true ∧ successFileExists d = true) → ow = true →
      ensureEmptyOutputDir (some d) ow rs = (GateDecision.proceed, none)) ∧
    (¬ (rs = true ∧ successFileExists d = true) → ow = false →
      ensureEmptyOutputDir (some d) ow rs = (GateDecision.fatal, some d)) ∧
    (rs = true → successFileExists d = false → ow = false →
      ensureEmptyOutputDir (some d) ow rs = (GateDecision.fatal, some d)) := by
  cases hm : successFileExists d <;> cases ow <;> cases rs <;>
    simp [ensureEmptyOutputDir, hm]

/-- Witness for C2 at a concrete directory holding the completion marker,
with both flags set: the gate skips. -/
theorem gate_decision_cases_witness :
    ensureEmptyOutputDir (some ⟨[("_SUCCESS", [])]⟩) true true =
      (GateDecision.skip, some ⟨[("_SUCCESS", [])]⟩) :=
  (gate_decision_cases ⟨[("_SUCCESS", [])]⟩ true true).2.1 rfl (by decide)

/-- C3: every constructed range query satisfies `start <= end`, both bounds
lie within `[pool_min, pool_max]`, and the inclusive width is at most the
requested width. -/
theorem range_query_invariants (posMin posMax center width : Int)
    (hb : posMin ≤ posMax) (hw : 1 ≤ width) :
    (rangeWindow posMin posMax center width).1 ≤ (rangeWindow posMin posMax center width).2 ∧
    posMin ≤ (rangeWindow posMin posMax center width).1 ∧
    (rangeWindow posMin posMax center width).1 ≤ posMax ∧
    posMin ≤ (rangeWindow posMin posMax center width).2 ∧
    (rangeWindow posMin posMax center width).2 ≤ posMax ∧
    (rangeWindow posMin posMax center width).2 - (rangeWindow posMin posMax center width).1 + 1
      ≤ width := by
  simp only [rangeWindow]
  omega

/-- Witness for C3 at the scenario D upper-bound query. -/
theorem range_query_invariants_witness :
    (rangeWindow 100 500 500 100).1 ≤ (rangeWindow 100 500 500 100).2 ∧
    (rangeWindow 100 500 500 100).2 - (rangeWindow 100 500 500 100).1 + 1 ≤ 100 := by
  have h := range_query_invariants 100 500 500 100 (by decide) (by decide)
  exact ⟨h.1, h.2.2.2.2.2⟩

/-- C8: coalesce triggers only when the shard count exceeds the configured
maximum and never increases the count; widen triggers only when the count is
below the configured minimum and never decreases it; an unset knob is a
no-op; the steps run in the order coalesce-then-widen, each against the
current count, and when widen fires the configured minimum bounds the final
count from below. -/
theorem partition_adjuster_properties (maxFiles minFiles : Option Nat) (p q : Nat) :
    adjustParts maxFiles minFiles p = widenStep minFiles (coalesceStep maxFiles p) ∧
    coalesceStep maxFiles p ≤ p ∧
    (coalesceStep maxFiles p ≠ p →
      ∃ m, maxFiles = some m ∧ m < p ∧ coalesceStep maxFiles p = m) ∧
    q ≤ widenStep minFiles q ∧
    (widenStep minFiles q ≠ q →
      ∃ n, minFiles = some n ∧ q < n ∧ widenStep minFiles q = n) ∧
    (maxFiles = none → coalesceStep maxFiles p = p) ∧
    (minFiles = none → widenStep minFiles q = q) ∧
    (∀ n, minFiles = some n → q < n → n ≤ widenStep minFiles q) := by
  refine ⟨rfl, ?_, ?_, ?_, ?_, ?_, ?_, ?_⟩
  · rcases maxFiles with _ | m <;> simp [coalesceStep] <;> split <;> omega
  · rcases maxFiles with _ | m
    · simp [coalesceStep]
    · simp only [coalesceStep]
      split
      · intro _; exact ⟨m, rfl, by omega, rfl⟩
      · intro h; exact absurd rfl h
  · rcases minFiles with _ | n <;> simp [widenStep] <;> split <;> omega
  · rcases minFiles with _ | n
    · simp [widenStep]
    · simp only [widenStep]
      split
      · intro _; exact ⟨n, rfl, by omega, rfl⟩
      · intro h; exact absurd rfl h
  · intro h; subst h; rfl
  · intro h; subst h; rfl
  · intro n h hlt
    subst h
    simp only [widenStep]
    split <;> omega

/-- Witness for C8: a concrete run where coalesce narrows 10 shards to 4 and
widen then raises 2 shards to 6, with the minimum bounding the result. -/
theorem partition_adjuster_properties_witness :
    coalesceStep (some 4) 10 ≤ 10 ∧ 2 ≤ widenStep (some 6) 2 ∧
    6 ≤ widenStep (some 6) 2 :=
  ⟨(partition_adjuster_properties (some 4) (some 6) 10 2).2.1,
   (partition_adjuster_properties (some 4) (some 6) 10 2).2.2.2.1,
   (partition_adjuster_properties (some 4) (some 6) 10 2).2.2.2.2.2.2.2 6 rfl (by decide)⟩

/-- C9: against an already-complete contig directory (completion marker
present) with resume set, the gate returns skip and leaves the directory
byte-for-byte untouched, and running it a second time on the resulting state
does the same. -/
theorem resume_gate_idempotent (d : ContigDir) (ow : Bool)
    (hm : successFileExists d = true) :
    ensureEmptyOutputDir (some d) ow true = (GateDecision.skip, some d) ∧
    ensureEmptyOutputDir (ensureEmptyOutputDir (some d) ow true).2 ow true =
      (GateDecision.skip, some d) := by
  simp [ensureEmptyOutputDir, hm]

/-- Witness for C9 at a concrete complete contig directory. -/
theorem resume_gate_idempotent_witness :
    ensureEmptyOutputDir (some ⟨[("_SUCCESS", []), ("part-0.parquet", [1, 2])]⟩) false true =
      (GateDecision.skip, some ⟨[("_SUCCESS", []), ("part-0.parquet", [1, 2])]⟩) :=
  (resume_gate_idempotent ⟨[("_SUCCESS", []), ("part-0.parquet", [1, 2])]⟩ false
    (by decide)).1

/-- C10: once the basic contig statistics check has passed (row count
nonzero, position minimum and maximum non-null), the candidate pool contains
both the contig-wide minimum and maximum, so it is non-empty and the fatal
`No positions found` exit after sampling can never fire — whatever the
file-based sample and fallback head-scan contribute. -/
theorem candidate_pool_nonempty (nRows : Nat) (a b : Int)
    (fileSamplePositions : List Int) (fallbackPositions : List (Option Int))
    (nPointQueries nRangeQueries : Nat)
    (hok : basicStatsFatal nRows (some a) (some b) = false) :
    a ∈ candidatePositionsList a b fileSamplePositions fallbackPositions
        nPointQueries nRangeQueries ∧
    b ∈ candidatePositionsList a b fileSamplePositions fallbackPositions
        nPointQueries nRangeQueries ∧
    noPositionsFatal (candidatePositionsList a b fileSamplePositions fallbackPositions
        nPointQueries nRangeQueries) = false := by
  have ha : a ∈ candidatePositionsList a b fileSamplePositions fallbackPositions
      nPointQueries nRangeQueries := by
    simp only [candidatePositionsList, mem_sortedDedup]
    split <;> simp [List.mem_dedup]
  have hb : b ∈ candidatePositionsList a b fileSamplePositions fallbackPositions
      nPointQueries nRangeQueries := by
    simp only [candidatePositionsList, mem_sortedDedup]
    split <;> simp [List.mem_dedup]
  refine ⟨ha, hb, ?_⟩
  simp only [noPositionsFatal]
  rw [Bool.eq_false_iff]
  intro hE
  rw [List.isEmpty_iff] at hE
  rw [hE] at ha
  simp at ha

/-- Witness for C10 at a concrete passing statistics check. -/
theorem candidate_pool_nonempty_witness :
    noPositionsFatal (candidatePositionsList 7 42 [] [] 8 5) = false :=
  (candidate_pool_nonempty 3 7 42 [] [] 8 5 (by decide)).2.2

/-- Concatenation law for the sampling loop over read outcomes. -/
theorem collectPositions_append (nRows : Nat) (l1 l2 : List ReadResult) :
    collectPositions nRows (l1 ++ l2) =
      collectPositions nRows l1 ++ collectPositions nRows l2 := by
  induction l1 with
  | nil => simp [collectPositions]
  | cons d dfs ih => simp [collectPositions, ih]

/-- C7: a per-file read error is recovered locally — dropping the erroring
file from the read outcomes leaves the collected positions unchanged, so a
bad file never aborts the sampling pass — and the fatal no-positions exit
fires exactly when the deduplicated candidate set is empty. -/
theorem sampler_error_policy (nRows : Nat) (pre post : List ReadResult)
    (e : Unit) (cand : List Int) :
    collectPositions nRows (pre ++ Except.error e :: post) =
      collectPositions nRows (pre ++ post) ∧
    (noPositionsFatal (sortedDedup cand) = true ↔ cand = []) := by
  constructor
  · rw [collectPositions_append, collectPositions_append]
    simp [collectPositions, readDF]
  · simp only [noPositionsFatal]
    rw [List.isEmpty_iff]
    exact sortedDedup_eq_nil_iff

/-- C5: the position sampler is deterministic — its output depends only on
the file list, the two sampling bounds, and the seed. Two executions whose
filesystems agree on the listed files (identical inputs) produce identical
output sequences, whatever else differs between them. -/
theorem sampler_deterministic (readFile1 readFile2 : String → ReadResult)
    (parquetFiles : List String) (nFiles nRowsPerFile seed : Nat)
    (hagree : ∀ f ∈ parquetFiles, readFile1 f = readFile2 f) :
    sampleExistingPositionsFromFiles readFile1 parquetFiles nFiles nRowsPerFile seed =
      sampleExistingPositionsFromFiles readFile2 parquetFiles nFiles nRowsPerFile seed := by
  unfold sampleExistingPositionsFromFiles
  have hsub : ∀ f ∈ chosenFiles parquetFiles nFiles seed, f ∈ parquetFiles := by
    intro f hf
    simp only [chosenFiles] at hf
    exact pySample_subset _ _ _ _ _ hf
  have hmap : (chosenFiles parquetFiles nFiles seed).map readFile1 =
      (chosenFiles parquetFiles nFiles seed).map readFile2 :=
    List.map_congr_left (fun f hf => hagree f (hsub f hf))
  rw [hmap]

/-- Witness for C5: two filesystems agreeing on the listed files yield the
same sample. -/
theorem sampler_deterministic_witness :
    sampleExistingPositionsFromFiles (fun _ => Except.ok [some 7]) ["a", "b"] 1 5 3 =
      sampleExistingPositionsFromFiles
        (fun f => if f == "c" then Except.error () else Except.ok [some 7])
        ["a", "b"] 1 5 3 :=
  sampler_deterministic _ _ ["a", "b"] 1 5 3 (by intro f hf; fin_cases hf <;> rfl)

/-- C6: the sampler draws exactly `min n_files (number of files)` distinct
files without replacement from the seeded generator, and each chosen file
contributes at most `n_rows_per_file` positions; with 10 files and
`n_files = 3` exactly 3 distinct files are chosen. -/
theorem sampler_chooses_min_distinct (readFile : String → ReadResult)
    (parquetFiles : List String) (nFiles nRowsPerFile seed : Nat)
    (hnd : parquetFiles.Nodup) :
    (chosenFiles parquetFiles nFiles seed).length = min nFiles parquetFiles.length ∧
    (chosenFiles parquetFiles nFiles seed).Nodup ∧
    (∀ f ∈ chosenFiles parquetFiles nFiles seed, f ∈ parquetFiles) ∧
    (∀ d : ReadResult, (readDF nRowsPerFile d).length ≤ nRowsPerFile) ∧
    (parquetFiles.length = 10 → nFiles = 3 →
      (chosenFiles parquetFiles nFiles seed).length = 3) := by
  have hlen : (chosenFiles parquetFiles nFiles seed).length =
      min nFiles parquetFiles.length := by
    simp only [chosenFiles]
    rw [pySample_length]
    omega
  refine ⟨hlen, ?_, ?_, ?_, ?_⟩
  · simp only [chosenFiles]
    exact pySample_nodup _ _ _ _ hnd
  · intro f hf
    simp only [chosenFiles] at hf
    exact pySample_subset _ _ _ _ _ hf
  · intro d
    cases d with
    | error e => simp [readDF]
    | ok rows =>
      simp only [readDF]
      calc ((rows.take nRowsPerFile).filterMap id).length
          ≤ (rows.take nRowsPerFile).length := List.length_filterMap_le _ _
        _ ≤ nRowsPerFile := by rw [List.length_take]; omega
  · intro h10 h3
    rw [hlen, h10, h3]
    omega

/-- Witness for C6: scenario E, ten files with `n_files = 3`, seed 42. -/
theorem sampler_chooses_min_distinct_witness :
    (chosenFiles ["f0", "f1", "f2", "f3", "f4", "f5", "f6", "f7", "f8", "f9"] 3 42).length
      = 3 ∧
    (chosenFiles ["f0", "f1", "f2", "f3", "f4", "f5", "f6", "f7", "f8", "f9"] 3 42).Nodup :=
  ⟨(sampler_chooses_min_distinct (fun _ => Except.error ())
      ["f0", "f1", "f2", "f3", "f4", "f5", "f6", "f7", "f8", "f9"] 3 100 42
      (by decide)).2.2.2.2 (by decide) rfl,
   (sampler_chooses_min_distinct (fun _ => Except.error ())
      ["f0", "f1", "f2", "f3", "f4", "f5", "f6", "f7", "f8", "f9"] 3 100 42
      (by decide)).2.1⟩

/-- Splitting a list's length by membership in a reference list. -/
theorem length_filter_split (l s : List Int) :
    l.length = (l.filter (fun p => decide (p ∈ s))).length +
      (l.filter (fun p => decide (¬ p ∈ s))).length := by
  induction l with
  | nil => rfl
  | cons a t ih =>
    simp only [decide_not] at ih ⊢
    by_cases h : a ∈ s <;> simp [List.filter_cons, h] <;> omega

/-- Filtering a duplicate-free list down to the complement of a
duplicate-free sublist removes exactly that sublist's length. -/
theorem length_filter_not_mem {l s : List Int} (hl : l.Nodup) (hs : s.Nodup)
    (hsub : ∀ x ∈ s, x ∈ l) :
    (l.filter (fun p => decide (¬ p ∈ s))).length = l.length - s.length ∧
    s.length ≤ l.length := by
  have h1 : (l.filter (fun p => decide (p ∈ s))).Nodup := hl.filter _
  have h2 : List.Perm (l.filter (fun p => decide (p ∈ s))) s := by
    apply List.perm_of_nodup_nodup_toFinset_eq h1 hs
    apply Finset.ext
    intro x
    simp only [List.mem_toFinset, List.mem_filter, decide_eq_true_eq]
    constructor
    · rintro ⟨_, hx⟩
      exact hx
    · intro hx
      exact ⟨hsub x hx, hx⟩
  have hkey : (l.filter (fun p => decide (p ∈ s))).length = s.length := h2.length_eq
  have h3 := length_filter_split l s
  constructor
  · omega
  · omega

/-- C4 (amended): over a non-empty duplicate-free candidate pool bounded by
its minimum and maximum, every selected point-query position is a member of
the pool and lies within `[pool_min, pool_max]`; the selection always
includes the pool minimum; it includes the pool maximum whenever at least two
point queries are requested (for `k_p = 1` the final truncation keeps only
the minimum); and after truncation and re-sort it has exactly
`min k_p (pool size)` entries. -/
theorem point_selection_amended (rand : Nat → Nat) (posMin posMax : Int)
    (pool : List Int) (k : Nat) (hnd : pool.Nodup) (hmin : posMin ∈ pool)
    (hmax : posMax ∈ pool) (hlb : ∀ x ∈ pool, posMin ≤ x)
    (hub : ∀ x ∈ pool, x ≤ posMax) (hk : 1 ≤ k) :
    (∀ x ∈ pointPositionsWith rand posMin posMax pool k, x ∈ pool) ∧
    (∀ x ∈ pointPositionsWith rand posMin posMax pool k, posMin ≤ x ∧ x ≤ posMax) ∧
    posMin ∈ pointPositionsWith rand posMin posMax pool k ∧
    (2 ≤ k → posMax ∈ pointPositionsWith rand posMin posMax pool k) ∧
    (pointPositionsWith rand posMin posMax pool k).length = min k pool.length := by
  have hk0 : ¬ k = 0 := by omega
  have hEq : pointPositionsWith rand posMin posMax pool k =
      (sortedDedup ((if posMax ≠ posMin then [posMin, posMax] else [posMin]) ++
        (pyShuffle rand (pool.filter (fun p => decide (¬ p ∈
          (if posMax ≠ posMin then [posMin, posMax] else [posMin]))))).take
        (k - (if posMax ≠ posMin then [posMin, posMax] else [posMin]).length))).take k := by
    simp only [pointPositionsWith, if_neg hk0]
  set pp0 : List Int := if posMax ≠ posMin then [posMin, posMax] else [posMin]
    with hpp0def
  set remaining : List Int := pool.filter (fun p => decide (¬ p ∈ pp0)) with hremdef
  set taken : List Int := (pyShuffle rand remaining).take (k - pp0.length) with htakendef
  set pp1 : List Int := pp0 ++ taken with hpp1def
  have hpp0_min : posMin ∈ pp0 := by
    rw [hpp0def]
    by_cases h : posMax = posMin <;> simp [h]
  have hpp0_max : posMax ∈ pp0 := by
    rw [hpp0def]
    by_cases h : posMax = posMin <;> simp [h]
  have hpp0_sub : ∀ x ∈ pp0, x ∈ pool := by
    intro x hx
    rw [hpp0def] at hx
    by_cases h : posMax = posMin
    · simp [h] at hx
      subst hx
      exact hmin
    · simp [h] at hx
      rcases hx with rfl | rfl
      · exact hmin
      · exact hmax
  have hpp0_nd : pp0.Nodup := by
    rw [hpp0def]
    by_cases h : posMax = posMin
    · simp [h]
    · simp [h]
      exact fun hc => h hc.symm
  have hpp0_len1 : 1 ≤ pp0.length := by
    rw [hpp0def]
    by_cases h : posMax = posMin <;> simp [h]
  have hpp0_len2 : pp0.length ≤ 2 := by
    rw [hpp0def]
    by_cases h : posMax = posMin <;> simp [h]
  have hrem_nd : remaining.Nodup := by
    rw [hremdef]
    exact hnd.filter _
  have hrem_sub : ∀ x ∈ remaining, x ∈ pool := by
    intro x hx
    rw [hremdef] at hx
    exact (List.mem_filter.mp hx).1
  have hrem_not : ∀ x ∈ remaining, x ∉ pp0 := by
    intro x hx
    rw [hremdef] at hx
    simpa using List.of_mem_filter hx
  have hshuf_perm : List.Perm (pyShuffle rand remaining) remaining :=
    pyShuffle_perm rand remaining
  have hshuf_nd : (pyShuffle rand remaining).Nodup := hshuf_perm.nodup_iff.mpr hrem_nd
  have htaken_rem : ∀ x ∈ taken, x ∈ remaining := by
    intro x hx
    rw [htakendef] at hx
    exact hshuf_perm.mem_iff.mp ((List.take_sublist _ _).subset hx)
  have htaken_nd : taken.Nodup := by
    rw [htakendef]
    exact hshuf_nd.sublist (List.take_sublist _ _)
  have hdisj : pp0.Disjoint taken := by
    intro x hx hx'
    exact hrem_not x (htaken_rem x hx') hx
  have hpp1_nd : pp1.Nodup := by
    rw [hpp1def]
    exact hpp0_nd.append htaken_nd hdisj
  have hpp1_sub : ∀ x ∈ pp1, x ∈ pool := by
    intro x hx
    rw [hpp1def] at hx
    rcases List.mem_append.mp hx with h | h
    · exact hpp0_sub x h
    · exact hrem_sub x (htaken_rem x h)
  have hpp1_min : posMin ∈ pp1 := by
    rw [hpp1def]
    exact List.mem_append_left _ hpp0_min
  have hpp1_max : posMax ∈ pp1 := by
    rw [hpp1def]
    exact List.mem_append_left _ hpp0_max
  have hflt := length_filter_not_mem hnd hpp0_nd hpp0_sub
  have hrem_len : remaining.length = pool.length - pp0.length := by
    rw [hremdef]
    exact hflt.1
  have hpp0_le_pool : pp0.length ≤ pool.length := hflt.2
  have hpp1_len : pp1.length = pp0.length + min (k - pp0.length) remaining.length := by
    rw [hpp1def, List.length_append, htakendef, List.length_take, hshuf_perm.length_eq]
  have hsd_len : (sortedDedup pp1).length = pp1.length := by
    rw [sortedDedup_length, hpp1_nd.dedup]
  have hsub_main : ∀ x ∈ pointPositionsWith rand posMin posMax pool k, x ∈ pool := by
    intro x hx
    rw [hEq] at hx
    exact hpp1_sub x (mem_sortedDedup.mp ((List.take_sublist _ _).subset hx))
  refine ⟨hsub_main, ?_, ?_, ?_, ?_⟩
  · intro x hx
    have hxp := hsub_main x hx
    exact ⟨hlb x hxp, hub x hxp⟩
  · rw [hEq]
    exact min_mem_take_of_sorted (sortedDedup_sorted pp1)
      (mem_sortedDedup.mpr hpp1_min)
      (fun y hy => hlb y (hpp1_sub y (mem_sortedDedup.mp hy))) hk
  · intro hk2
    rw [hEq]
    have hlen_le : (sortedDedup pp1).length ≤ k := by
      rw [hsd_len, hpp1_len]
      omega
    rw [List.take_of_length_le hlen_le]
    exact mem_sortedDedup.mpr hpp1_max
  · rw [hEq, List.length_take, hsd_len, hpp1_len, hrem_len]
    omega

/-- C4 counterexample: with pool `[1, 5]` and a single requested point query
the final truncation `sorted(set([pos_min, pos_max]))[:1]` keeps only the
pool minimum, so the selection does not include the distinct pool maximum. -/
theorem point_selection_counterexample :
    pointPositions 1 1 5 [1, 5] 1 = [1] ∧
    (5 : Int) ≠ 1 ∧
    (5 : Int) ∉ pointPositions 1 1 5 [1, 5] 1 := by
  refine ⟨?_, ?_, ?_⟩ <;> decide

/-- Witness for the amended C4 at pool `[1, 3, 5]` with two point queries. -/
theorem point_selection_amended_witness :
    (1 : Int) ∈ pointPositionsWith (pyStream 1) 1 5 [1, 3, 5] 2 ∧
    (5 : Int) ∈ pointPositionsWith (pyStream 1) 1 5 [1, 3, 5] 2 ∧
    (pointPositionsWith (pyStream 1) 1 5 [1, 3, 5] 2).length =
      min 2 ([1, 3, 5] : List Int).length := by
  have h := point_selection_amended (pyStream 1) 1 5 [1, 3, 5] 2 (by decide) (by decide)
    (by decide) (by decide) (by decide) (by decide)
  exact ⟨h.2.2.1, h.2.2.2.1 (by decide), h.2.2.2.2⟩
